import Mathlib

/-!
Verification of the Intelligent-Query-Retrieval-System pipeline.

This file is a shallow embedding, in Lean 4, of the local (non-network)
logic of the repository:

* `src/services/document_processor.py` — text chunking
  (`_split_text_into_chunks`, `DocumentChunk`);
* `src/services/retrieval_engine.py` — hybrid scoring
  (`_enhance_with_keyword_search`), LLM reranking (`rerank_chunks`),
  retrieval failure policy (`retrieve_relevant_chunks`),
  storage bookkeeping (`store_document`);
* `src/services/vector_store.py` — chunk down-selection
  (`_select_best_chunks`) and storage (`store_document_chunks`);
* `src/services/decision_engine.py` — synthesis fallback
  (`_create_fallback_synthesis`, `_synthesize_analysis`);
* `src/api/routes/hackrx.py` — per-question error isolation
  (`process_queries`, `process_single_question`).

Python strings are modelled as `List Char`; Python floats (scores,
confidences) as `ℚ`; calls to hosted services (LLM, vector database) as
explicit parameters carrying either the call's result or its failure
(`Except`); raised exceptions as `Except.error`.
-/

set_option maxRecDepth 10000

namespace IQRS

/-- Python strings, modelled positionally as lists of characters. -/
abbrev Str := List Char

/-! ## Python string primitives -/

/-- The whitespace set of Python `str.strip()` / `str.split()`:
space, tab, newline, carriage return, vertical tab, form feed. -/
def pyIsSpace (c : Char) : Bool :=
  c = ' ' || c = '\t' || c = '\n' || c = '\r' || c = '\x0b' || c = '\x0c'

/-- Remove leading whitespace (the left half of Python `str.strip()`). -/
def stripLeft (s : Str) : Str := s.dropWhile pyIsSpace

/-- Remove trailing whitespace (the right half of Python `str.strip()`). -/
def stripRight (s : Str) : Str := (s.reverse.dropWhile pyIsSpace).reverse

/-- Python `s.strip()`. -/
def pyStrip (s : Str) : Str := stripRight (stripLeft s)

/-- Python `s.lower()` (ASCII-level model). -/
def pyLower (s : Str) : Str := s.map Char.toLower

/-- Accumulator-based splitting on the two-character separator `"\n\n"`,
matching Python `text.split("\n\n")`: non-overlapping, leftmost-first,
keeping empty pieces. -/
def splitOn2NL : Str → Str → List Str
  | acc, [] => [acc.reverse]
  | acc, '\n' :: '\n' :: rest => acc.reverse :: splitOn2NL [] rest
  | acc, c :: rest => splitOn2NL (c :: acc) rest

/-- Splitting on a single character, matching Python `text.split(c)`. -/
def splitOnChar (c : Char) : Str → Str → List Str
  | acc, [] => [acc.reverse]
  | acc, x :: rest =>
    if x = c then acc.reverse :: splitOnChar c [] rest
    else splitOnChar c (x :: acc) rest

/-- Whether `w` is a (contiguous) leading segment of `s`. -/
def begins : Str → Str → Bool
  | [], _ => true
  | _ :: _, [] => false
  | a :: as, b :: bs => a = b && begins as bs

/-- Python `w in s`: contiguous-substring containment
with no word-boundary check. -/
def occursIn (w : Str) : Str → Bool
  | [] => begins w []
  | c :: rest => begins w (c :: rest) || occursIn w rest

/-- Split at every whitespace character, keeping empty pieces
(helper for `pySplitWs`). -/
def splitAtWs : Str → List Str
  | [] => [[]]
  | c :: rest =>
    let r := splitAtWs rest
    if pyIsSpace c then [] :: r
    else match r with
      | [] => [[c]]
      | w :: ws => (c :: w) :: ws

/-- Python `s.split()` with no argument: split on whitespace runs,
discarding empty words. -/
def pySplitWs (s : Str) : List Str :=
  (splitAtWs s).filter (fun w => w ≠ [])

/-! ## Text chunker (`document_processor._split_text_into_chunks`)

Constants fixed to the repository defaults: `settings.max_chunk_size`
defaults to `1024`, so `optimal_chunk_size = min(1024 * 3, 3072) = 3072`;
`min_chunk_size` and `overlap_size` are the literals `200` and `150`. -/

def minChunkSize : Nat := 200
def optimalChunkSize : Nat := 3072
def overlapSize : Nat := 150

/-- The `"\n\n"` separator used when accumulating paragraphs. -/
def sepNL : Str := ['\n', '\n']

/-- The metadata fields of a produced chunk that the chunker computes
itself (`base_metadata` pass-through fields are omitted). -/
structure ChunkMeta where
  chunk_index : Nat
  chunk_size : Nat
  paragraph_count : Nat
deriving Repr, DecidableEq

/-- Model of `DocumentChunk` from `document_processor.py`. -/
structure DocumentChunk where
  text : Str
  metadata : ChunkMeta
deriving Repr, DecidableEq

/-- Model of `len([p for p in current_chunk.split(blank-line) if p.strip()])`. -/
def paragraphCount (s : Str) : Nat :=
  ((splitOn2NL [] s).filter (fun p => pyStrip p ≠ [])).length

/-- Chunk construction at emission time: the stored text is
`current_chunk.strip()` while `chunk_size` is `len(current_chunk)`,
the length of the *un-stripped* buffer. -/
def mkChunk (current : Str) (idx : Nat) : DocumentChunk :=
  { text := pyStrip current
    metadata :=
      { chunk_index := idx
        chunk_size := current.length
        paragraph_count := paragraphCount current } }

/-- The loop state of `_split_text_into_chunks`. -/
structure ChunkState where
  current : Str
  idx : Nat
  chunks : List DocumentChunk
deriving Repr

/-- One iteration of the paragraph loop of `_split_text_into_chunks`:
on overflow, the buffer is emitted when non-trivial (advancing the
chunk index), and the next buffer starts with the trailing-character
overlap of the previous one followed by the overflowing paragraph. -/
def chunkStep (st : ChunkState) (para : Str) : ChunkState :=
  let potential := if st.current = [] then para else st.current ++ sepNL ++ para
  if potential.length ≤ optimalChunkSize then
    { st with current := potential }
  else
    { current :=
        if st.current ≠ [] ∧ overlapSize < st.current.length then
          st.current.drop (st.current.length - overlapSize) ++ sepNL ++ para
        else para
      idx :=
        if st.current ≠ [] ∧ minChunkSize < (pyStrip st.current).length then
          st.idx + 1
        else st.idx
      chunks :=
        if st.current ≠ [] ∧ minChunkSize < (pyStrip st.current).length then
          st.chunks ++ [mkChunk st.current st.idx]
        else st.chunks }

/-- The paragraph list `_split_text_into_chunks` iterates over:
blank-line split, strip, drop empties; if that is empty, fall back to
sentence splitting on `'.'`. -/
def paragraphsOf (t : Str) : List Str :=
  let paras0 := ((splitOn2NL [] t).map pyStrip).filter (fun p => p ≠ [])
  if paras0 = [] then
    ((((splitOnChar '.' [] t).map pyStrip).filter (fun p => p ≠ [])).map
      (fun p => p ++ ['.']))
  else paras0

/-- The trailing block of `_split_text_into_chunks`: emit the final
buffer when it still holds meaningful content. -/
def finalizeChunks (final : ChunkState) : List DocumentChunk :=
  if final.current ≠ [] ∧ minChunkSize < (pyStrip final.current).length then
    final.chunks ++ [mkChunk final.current final.idx]
  else final.chunks

/-- Model of `_split_text_into_chunks` from `document_processor.py`. -/
def split_text_into_chunks (text : Str) : List DocumentChunk :=
  let t := pyStrip text
  if t = [] then []
  else finalizeChunks ((paragraphsOf t).foldl chunkStep ⟨[], 0, []⟩)

/-- Join a paragraph list with blank-line separators (the normalized
text the chunker effectively operates on). -/
def joinParas : List Str → Str
  | [] => []
  | [p] => p
  | p :: ps => p ++ sepNL ++ joinParas ps

/-! ## Stable descending sort

Python `list.sort(key=..., reverse=True)` is a stable sort placing
larger keys first.  Insertion sort with this insertion rule computes
exactly that result, so we use it as the embedding of `.sort(...)`. -/

/-- Insert `a` into `l` just before the first element with a strictly
smaller key (so `a` lands after all earlier elements of equal key). -/
def insertDesc {α β : Type _} [LinearOrder β] (key : α → β) (a : α) : List α → List α
  | [] => [a]
  | b :: bs => if key b < key a then a :: b :: bs else b :: insertDesc key a bs

/-- Stable descending sort by `key` (left-to-right insertion). -/
def sortDesc {α β : Type _} [LinearOrder β] (key : α → β) (l : List α) : List α :=
  l.foldl (fun acc a => insertDesc key a acc) []

/-! ## Retrieval engine (`retrieval_engine.py`)

Search results are Python dicts; the enhancement step adds the keys
`keyword_score`, `combined_score`, `keyword_matches`, modelled as
`Option` fields that start out `none`. -/

/-- A vector-search result dict (`search_similar_chunks` output,
possibly enhanced by `_enhance_with_keyword_search`). -/
structure ChunkDict where
  id : String
  score : ℚ
  text : Str
  page : Option Nat
  document_id : String
  chunk_index : Nat
  keyword_score : Option ℚ := none
  combined_score : Option ℚ := none
  keyword_matches : Option Nat := none
deriving Repr, DecidableEq

/-- Model of `set(query.lower().split())` as a duplicate-free list.  Only its
cardinality and membership are ever used, so first-occurrence
deduplication is a faithful model of the Python set. -/
def queryWords (query : Str) : List Str :=
  (pySplitWs (pyLower query)).dedup

/-- The per-candidate body of `_enhance_with_keyword_search`:
`keyword_matches = sum(1 for word in query_words if word in text)` over
the lowercased chunk text, `keyword_score = matches / len(query_words)`
(`0` if the query has no words), and
`combined_score = 0.7 * vector_score + 0.3 * keyword_score`. -/
def enhanceOne (qws : List Str) (r : ChunkDict) : ChunkDict :=
  let text := pyLower r.text
  let nMatches := qws.countP (fun w => occursIn w text)
  let kscore : ℚ := if qws ≠ [] then (nMatches : ℚ) / (qws.length : ℚ) else 0
  { r with
    keyword_matches := some nMatches
    keyword_score := some kscore
    combined_score := some ((7/10) * r.score + (3/10) * kscore) }

/-- Model of `_enhance_with_keyword_search`: score every candidate, then sort
descending by `combined_score` (`combined_score` is set on every
enhanced candidate, so the `getD 0` default is never exercised). -/
def enhance_with_keyword_search (query : Str) (vector_results : List ChunkDict) :
    List ChunkDict :=
  sortDesc (fun c => c.combined_score.getD 0)
    (vector_results.map (enhanceOne (queryWords query)))

/-- Model of `retrieve_relevant_chunks`: the body runs vector-store
initialization and similarity search (modelled by their outcomes) and
optionally the keyword enhancement; `except Exception` converts any
failure into the empty list. -/
def retrieve_relevant_chunks
    (init_outcome : Except String Unit)
    (search_outcome : Except String (List ChunkDict))
    (query : Str) (use_hybrid_search : Bool) : List ChunkDict :=
  match init_outcome with
  | .error _ => []
  | .ok _ =>
    match search_outcome with
    | .error _ => []
    | .ok vector_results =>
      if use_hybrid_search then enhance_with_keyword_search query vector_results
      else vector_results

/-- A chunk dict as returned by `rerank_chunks`: the input chunk,
plus the `llm_rank` / `llm_score` keys the success path adds
(`none` on the fallback paths, which return the dicts unchanged). -/
structure RerankEntry (α : Type _) where
  chunk : α
  llm_rank : Option Nat := none
  llm_score : Option ℚ := none
deriving Repr, DecidableEq

/-- The first loop of `rerank_chunks`: walk the LLM ranking, appending
`top_chunks[chunk_num - 1]` for every in-range 1-based index, with
`llm_rank = rank_idx + 1` and `llm_score = 1 - rank_idx / len(ranking)`. -/
def rerankRankedLoop {α : Type _} (top : List α) (ranking : List Int) :
    List (RerankEntry α) :=
  (ranking.enum).foldl
    (fun acc (p : Nat × Int) =>
      if 1 ≤ p.2 ∧ p.2 ≤ (top.length : Int) then
        match top.get? (p.2.toNat - 1) with
        | some c =>
          acc ++ [{ chunk := c
                    llm_rank := some (p.1 + 1)
                    llm_score := some (1 - (p.1 : ℚ) / (ranking.length : ℚ)) }]
        | none => acc
      else acc)
    []

/-- The second loop of `rerank_chunks`: append every chunk whose
1-based index does not occur in the ranking, with
`llm_rank = len(ranking) + 1` and `llm_score = 0.0`. -/
def rerankOmittedLoop {α : Type _} (top : List α) (ranking : List Int) :
    List (RerankEntry α) :=
  (top.enum).foldl
    (fun acc p =>
      if ((p.1 : Int) + 1) ∈ ranking then acc
      else acc ++ [{ chunk := p.2
                     llm_rank := some (ranking.length + 1)
                     llm_score := some 0 }])
    []

/-- Model of `rerank_chunks`: empty input is returned unchanged; otherwise only
`top_chunks = chunks[:rerank_top_k * 2]` is considered.  On a parsed
ranking the two loops run and the result is truncated to
`rerank_top_k`; on an unparseable ranking (or a failed LLM call) the
fallback returns `top_chunks[:rerank_top_k]`, the original dicts with
no `llm_*` keys. -/
def rerank_chunks {α : Type _} (rerank_top_k : Nat)
    (ranking_outcome : Except String (List Int)) (chunks : List α) :
    List (RerankEntry α) :=
  if chunks.isEmpty then []
  else
    let top := chunks.take (rerank_top_k * 2)
    match ranking_outcome with
    | .error _ => (top.take rerank_top_k).map (fun c => { chunk := c })
    | .ok ranking =>
      (rerankRankedLoop top ranking ++ rerankOmittedLoop top ranking).take rerank_top_k

/-! ## Vector store (`vector_store.py`) -/

/-- The content keywords `_select_best_chunks` scores for. -/
def domainKeywords : List Str :=
  ["policy".toList, "coverage".toList, "benefit".toList,
   "condition".toList, "exclusion".toList]

/-- The structure markers `_select_best_chunks` scores for. -/
def structureMarkers : List Str :=
  [":".toList, "-".toList, "•".toList, "1.".toList, "2.".toList,
   "a)".toList, "b)".toList]

/-- The per-chunk quality score of `_select_best_chunks`. -/
def chunkScore (c : DocumentChunk) : Nat :=
  let tl := c.text.length
  (if 500 ≤ tl ∧ tl ≤ 2000 then 3
   else if 200 ≤ tl ∧ tl ≤ 3000 then 2
   else 1)
  + (if domainKeywords.any (fun kw => occursIn kw (pyLower c.text)) then 2 else 0)
  + (if structureMarkers.any (fun m => occursIn m c.text) then 1 else 0)

/-- Model of `_select_best_chunks`: score, sort descending (stable), keep the
first `max_chunks`. -/
def select_best_chunks (chunks : List DocumentChunk) (max_chunks : Nat) :
    List DocumentChunk :=
  if chunks.length ≤ max_chunks then chunks
  else
    ((sortDesc (fun p => p.1) (chunks.map (fun c => (chunkScore c, c)))).take
      max_chunks).map (fun p => p.2)

/-- The hard-coded `max_chunks = 50` of `store_document_chunks`. -/
def maxStoreChunks : Nat := 50

/-- A vector record prepared for upsert (the md5-derived `id` string of
`_generate_vector_id` is produced by `hashlib` and is not needed by any
claim, so it is left out of the record). -/
structure StoredVector where
  values : List ℚ
  document_id : String
  chunk_index : Nat
  text : Str
  chunk_size : Nat
deriving Repr, DecidableEq

/-- The batch decomposition of the upsert loop
(`for i in range(0, len(vectors), 100)`). -/
def batches100 {α : Type _} : List α → List (List α)
  | [] => []
  | l@(_ :: _) => l.take 100 :: batches100 (l.drop 100)
  termination_by l => l.length
  decreasing_by simp_all [List.length_drop]; omega

/-- Model of `store_document_chunks`: down-select when more than 50 chunks,
embed, build one vector per `(chunk, embedding)` pair, upsert in
batches of 100, and return the sum of the batch sizes.  The embeddings
returned by the generation client are passed in as a parameter. -/
def store_document_chunks (embeddings : List (List ℚ))
    (chunks : List DocumentChunk) (document_id : String) : Nat :=
  let selected :=
    if maxStoreChunks < chunks.length then select_best_chunks chunks maxStoreChunks
    else chunks
  let vectors := (selected.zip embeddings).enum.map
    (fun p => StoredVector.mk p.2.2 document_id p.1 (p.2.1.text.take 1000)
      p.2.1.text.length)
  (batches100 vectors).foldl (fun n b => n + b.length) 0

/-- The result dict of `retrieval_engine.store_document`. -/
structure StoreResult where
  document_id : String
  total_chunks : Nat
  stored_chunks : Nat
  success : Bool
deriving Repr, DecidableEq

/-- Model of `retrieval_engine.store_document`:
`success = (stored_count == len(chunks))`. -/
def store_document (embeddings : List (List ℚ))
    (chunks : List DocumentChunk) (document_id : String) : StoreResult :=
  let stored := store_document_chunks embeddings chunks document_id
  { document_id := document_id
    total_chunks := chunks.length
    stored_chunks := stored
    success := stored == chunks.length }

/-! ## Decision engine (`decision_engine.py`) -/

/-- A sub-question analysis dict (§3 `SubQuestionAnalysis`). -/
structure SubAnalysis where
  sub_question : String
  is_addressed : Bool
  evidence : List String
  answer : String
  confidence : ℚ
  limitations : List String
deriving Repr, DecidableEq

/-- The `clause_reference` sub-dict. -/
structure ClauseRef where
  page : Option Nat
  clause_title : Option String
deriving Repr, DecidableEq

/-- The synthesis dict produced by `_synthesize_analysis` /
`_create_fallback_synthesis`. -/
structure Synthesis where
  isCovered : Bool
  conditions : List String
  limitations : List String
  clause_reference : ClauseRef
  rationale : String
  confidence_score : ℚ
  evidence_strength : String
  completeness : String
  contradictions : List String
  gaps : List String
deriving Repr, DecidableEq

/-- The fallback rationale f-string. -/
def fallbackRationale (n : Nat) : String :=
  s!"Analysis based on {n} sub-questions. Fallback synthesis used due to processing limitations."

/-- Model of `_create_fallback_synthesis`.  Note the Python truthiness tests:
`if analysis.get("confidence")` skips a confidence of `0.0`, so the
average ranges over the *non-zero* confidences only; `all_evidence` is
collected but never used; `conditions` is always empty. -/
def create_fallback_synthesis (original_query : String)
    (sub_analyses : List SubAnalysis) : Synthesis :=
  let all_limitations := sub_analyses.foldl
    (fun acc a => if a.limitations ≠ [] then acc ++ a.limitations else acc) []
  let _all_evidence := sub_analyses.foldl
    (fun acc a => if a.evidence ≠ [] then acc ++ a.evidence else acc) []
  let confidence_scores :=
    (sub_analyses.filter (fun a => a.confidence ≠ 0)).map (fun a => a.confidence)
  let avg_confidence : ℚ :=
    if confidence_scores ≠ [] then
      confidence_scores.sum / (confidence_scores.length : ℚ)
    else 0
  { isCovered := sub_analyses.any (fun a => a.is_addressed)
    conditions := []
    limitations := all_limitations
    clause_reference := { page := none, clause_title := some "Multiple sources" }
    rationale := fallbackRationale sub_analyses.length
    confidence_score := avg_confidence
    evidence_strength := if 3/5 < avg_confidence then "moderate" else "weak"
    completeness := "partial"
    contradictions := []
    gaps := ["Detailed synthesis unavailable"] }

/-- Model of `_synthesize_analysis`: one LLM call (outcome passed in); on
success `json.loads` the response (`parse` models `json.loads` plus the
dict shape — `none` on any non-JSON string); a parse failure or a
failed call falls back to `_create_fallback_synthesis`. -/
def synthesize_analysis (parse : String → Option Synthesis)
    (llm_outcome : Except String String)
    (original_query : String) (sub_analyses : List SubAnalysis) : Synthesis :=
  match llm_outcome with
  | .error _ => create_fallback_synthesis original_query sub_analyses
  | .ok response =>
    match parse response with
    | some synthesis => synthesis
    | none => create_fallback_synthesis original_query sub_analyses

/-! ## API layer (`api/routes/hackrx.py`) -/

/-- Default of `settings.llm_model`. -/
def llmModelName : String := "gemini-2.0-flash"

/-- Default of `settings.embedding_model`. -/
def embeddingModelName : String := "text-embedding-004"

/-- Model of `ProcessingMetadata` from the response model. -/
structure ProcessingMetadata where
  model_used : String
  embedding_model : String
  chunks_analyzed : Nat
  total_tokens : Option Nat
deriving Repr, DecidableEq

/-- Model of `QueryAnswer` from the response model. -/
structure QueryAnswer where
  question : String
  isCovered : Bool
  conditions : List String
  clause_reference : ClauseRef
  rationale : String
  confidence_score : ℚ
  processing_metadata : ProcessingMetadata
deriving Repr, DecidableEq

/-- The per-question error placeholder built in the `except` clause of
the question loop of `process_queries`. -/
def errorAnswer (question : String) (e : String) : QueryAnswer :=
  { question := question
    isCovered := false
    conditions := []
    clause_reference := { page := none, clause_title := some "Error" }
    rationale := "Failed to process question due to error: " ++ e
    confidence_score := 0
    processing_metadata :=
      { model_used := llmModelName
        embedding_model := embeddingModelName
        chunks_analyzed := 0
        total_tokens := some 0 } }

/-- The analysis dict returned by `perform_fast_analysis` (all of its
paths return a dict; `limitations` is absent from those dicts, so
`evaluation.get("limitations", [])` defaults to `[]`). -/
structure Evaluation where
  isCovered : Bool
  conditions : List String
  limitations : List String := []
  clause_reference : ClauseRef
  rationale : String
  confidence_score : ℚ
  evidence_strength : Option String := none
  completeness : Option String := none
  contradictions : List String := []
deriving Repr, DecidableEq

/-- Steps 5-6 of `process_single_question`: assemble the `QueryAnswer`
and append the advanced-analysis annotations to the rationale. -/
def mkAnswer (question : String) (ev : Evaluation) (chunks_analyzed : Nat) :
    QueryAnswer :=
  let r1 := match ev.evidence_strength with
    | some s => ev.rationale ++ " [Evidence: " ++ s ++ "]"
    | none => ev.rationale
  let r2 := match ev.completeness with
    | some s => r1 ++ " [Completeness: " ++ s ++ "]"
    | none => r1
  let n := ev.contradictions.length
  let r3 := if ev.contradictions ≠ [] then
      r2 ++ s!" [Contradictions found: {n}]"
    else r2
  { question := question
    isCovered := ev.isCovered
    conditions := ev.conditions ++ ev.limitations
    clause_reference := ev.clause_reference
    rationale := r3
    confidence_score := ev.confidence_score
    processing_metadata :=
      { model_used := llmModelName
        embedding_model := embeddingModelName
        chunks_analyzed := chunks_analyzed
        total_tokens := none } }

/-- The exception raised by the fallback branch of
`process_single_question`: when retrieval returns no chunks, the branch
evaluates the local variable `chunks`, which is bound nowhere in the
function (nor globally in the module), so Python raises NameError
(message: `name` followed by the quoted identifier `chunks`
`is not defined`). -/
def nameErrorChunks : String := "name chunks is not defined"

/-- Model of `process_single_question`: `analyze_query`, retrieval, reranking
and `perform_fast_analysis` all catch their own exceptions (so they are
modelled as total), leaving the undefined-variable fallback branch as
the one failure point.  `relevant_chunks` is the retrieval result;
reranking runs when more than `rerank_top_k` chunks were retrieved. -/
def process_single_question {α : Type _} (rerank_top_k : Nat)
    (relevant_chunks : List α)
    (rerankFn : List α → List α)
    (fast_eval : List α → Evaluation)
    (question : String) : Except String QueryAnswer :=
  let relevant :=
    if rerank_top_k < relevant_chunks.length then rerankFn relevant_chunks
    else relevant_chunks
  if relevant.isEmpty then .error nameErrorChunks
  else .ok (mkAnswer question (fast_eval relevant) relevant.length)

/-- The question loop of `process_queries` (step 3): process each
question in order; a raised exception is converted into the error
placeholder for that question only.  `outcome` maps each question to
the result (or raised exception) of `process_single_question` on it. -/
def process_queries (outcome : String → Except String QueryAnswer)
    (questions : List String) : List QueryAnswer :=
  questions.map (fun q =>
    match outcome q with
    | .ok a => a
    | .error e => errorAnswer q e)

/-! ## Lemmas about the Python string primitives -/

lemma dropWhile_idem (p : Char → Bool) (l : Str) :
    (l.dropWhile p).dropWhile p = l.dropWhile p := by
  cases h : l.dropWhile p with
  | nil => simp
  | cons c t =>
    have hc : p c = false := by
      have hne : l.dropWhile p ≠ [] := by simp [h]
      have := List.head_dropWhile_not p l hne
      simpa [h] using this
    simp [List.dropWhile_cons, hc]

lemma dropWhile_cons_not {p : Char → Bool} {l t : Str} {c : Char}
    (h : l.dropWhile p = c :: t) : p c = false := by
  induction l with
  | nil => simp at h
  | cons a as ih =>
    rw [List.dropWhile_cons] at h
    cases hpa : p a with
    | true => rw [hpa] at h; simp at h; exact ih h
    | false =>
      rw [hpa] at h
      simp at h
      rw [← h.1]
      exact hpa

lemma stripLeft_head_not_space {s : Str} {c : Char} {t : Str}
    (h : stripLeft s = c :: t) : pyIsSpace c = false :=
  dropWhile_cons_not h

lemma stripLeft_idem (s : Str) : stripLeft (stripLeft s) = stripLeft s :=
  dropWhile_idem pyIsSpace s

lemma stripRight_reverse_eq (s : Str) :
    (stripRight s).reverse = s.reverse.dropWhile pyIsSpace := by
  simp [stripRight]

lemma stripRight_idem (s : Str) : stripRight (stripRight s) = stripRight s := by
  unfold stripRight
  rw [List.reverse_reverse, dropWhile_idem]

lemma stripLeft_length_le (s : Str) : (stripLeft s).length ≤ s.length :=
  (List.dropWhile_sublist pyIsSpace).length_le

lemma stripRight_length_le (s : Str) : (stripRight s).length ≤ s.length := by
  have := (List.dropWhile_sublist (l := s.reverse) pyIsSpace).length_le
  simpa [stripRight] using this

lemma pyStrip_length_le (s : Str) : (pyStrip s).length ≤ s.length :=
  le_trans (stripRight_length_le _) (stripLeft_length_le s)

lemma pyStrip_nil : pyStrip [] = [] := rfl

lemma stripLeft_eq_self_of_strip {s : Str} (h : pyStrip s = s) :
    stripLeft s = s := by
  have hsub : List.Sublist (stripLeft s) s := List.dropWhile_sublist pyIsSpace
  refine hsub.eq_of_length_le ?_
  calc s.length = (pyStrip s).length := by rw [h]
    _ ≤ (stripLeft s).length := stripRight_length_le _

lemma stripRight_eq_self_of_strip {s : Str} (h : pyStrip s = s) :
    stripRight s = s := by
  have h1 := stripLeft_eq_self_of_strip h
  have : pyStrip s = stripRight s := by rw [pyStrip, h1]
  rw [← this, h]

/-- Appending to the left of a left-stripped string strips to the
concatenation of the left-stripped prefix and the string. -/
lemma stripLeft_append_of_stripped {p : Str} (hp : stripLeft p = p) (x : Str) :
    stripLeft (x ++ p) = stripLeft x ++ p := by
  unfold stripLeft at *
  rw [List.dropWhile_append]
  split
  · next hemp =>
    rw [List.isEmpty_iff] at hemp
    simp [hemp, hp]
  · rfl

/-- Appending to the right of a right-stripped, non-empty string leaves
nothing to strip on the right. -/
lemma stripRight_append_of_stripped {p : Str} (hp : stripRight p = p)
    (hne : p ≠ []) (x : Str) : stripRight (x ++ p) = x ++ p := by
  unfold stripRight
  rw [List.reverse_append, List.dropWhile_append]
  have hrev : p.reverse.dropWhile pyIsSpace = p.reverse := by
    have := stripRight_reverse_eq p
    rw [hp] at this
    exact this.symm
  have hemp : (p.reverse.dropWhile pyIsSpace).isEmpty = false := by
    rw [hrev]
    simp [List.isEmpty_iff, hne]
  rw [hemp]
  simp [hrev]

/-- Computing `strip` of `x ++ p` for a fully stripped non-empty `p`. -/
lemma pyStrip_append_of_stripped {p : Str} (hpl : stripLeft p = p)
    (hpr : stripRight p = p) (hne : p ≠ []) (x : Str) :
    pyStrip (x ++ p) = stripLeft x ++ p := by
  rw [pyStrip, stripLeft_append_of_stripped hpl,
    stripRight_append_of_stripped hpr hne]

lemma stripRight_front (s : Str) : ∃ t, stripRight s ++ t = s := by
  obtain ⟨t, ht⟩ := List.dropWhile_suffix (l := s.reverse) pyIsSpace
  refine ⟨t.reverse, ?_⟩
  rw [stripRight]
  have := congrArg List.reverse ht
  simpa [List.reverse_append] using this

lemma pyStrip_idem (s : Str) : pyStrip (pyStrip s) = pyStrip s := by
  cases h : pyStrip s with
  | nil => simp [pyStrip_nil]
  | cons c t =>
    have hpre : ∃ t2, pyStrip s ++ t2 = stripLeft s :=
      stripRight_front (stripLeft s)
    have hc : pyIsSpace c = false := by
      obtain ⟨t2, ht2⟩ := hpre
      rw [h] at ht2
      exact stripLeft_head_not_space (s := s) (t := t ++ t2)
        (by rw [← ht2]; simp)
    have hl : stripLeft (pyStrip s) = pyStrip s := by
      rw [h]
      simp [stripLeft, List.dropWhile_cons, hc]
    have hr : stripRight (pyStrip s) = pyStrip s := by
      rw [pyStrip, stripRight_idem]
    rw [← h]
    rw [pyStrip, hl, hr]

/-- The well-formedness of the paragraphs the chunker iterates over:
non-empty and fully stripped. -/
def PPara (p : Str) : Prop := p ≠ [] ∧ pyStrip p = p

lemma PPara.left {p : Str} (h : PPara p) : stripLeft p = p :=
  stripLeft_eq_self_of_strip h.2

lemma PPara.right {p : Str} (h : PPara p) : stripRight p = p :=
  stripRight_eq_self_of_strip h.2

lemma pyStrip_PPara {s : Str} (h : pyStrip s ≠ []) : PPara (pyStrip s) :=
  ⟨h, pyStrip_idem s⟩

lemma PPara_append_dot {p : Str} (h : PPara p) : PPara (p ++ ['.']) := by
  have hdot : PPara ['.'] := ⟨by simp, by decide⟩
  refine ⟨by simp, ?_⟩
  rw [show p ++ ['.'] = p ++ ['.'] from rfl,
    pyStrip_append_of_stripped hdot.left hdot.right hdot.1 p, h.left]

lemma paragraphsOf_PPara {t : Str} : ∀ p ∈ paragraphsOf t, PPara p := by
  intro p hp
  unfold paragraphsOf at hp
  by_cases hsp : ((splitOn2NL [] t).map pyStrip).filter (fun p => p ≠ []) = []
  · rw [if_pos hsp] at hp
    simp only [List.mem_map] at hp
    obtain ⟨q, hq, rfl⟩ := hp
    rw [List.mem_filter] at hq
    obtain ⟨hq1, hq2⟩ := hq
    simp only [List.mem_map] at hq1
    obtain ⟨r, _, rfl⟩ := hq1
    exact PPara_append_dot (pyStrip_PPara (by simpa using hq2))
  · rw [if_neg hsp] at hp
    rw [List.mem_filter] at hp
    obtain ⟨hp1, hp2⟩ := hp
    simp only [List.mem_map] at hp1
    obtain ⟨r, _, rfl⟩ := hp1
    exact pyStrip_PPara (by simpa using hp2)

/-! ## Lemmas about the stable descending sort -/

lemma insertDesc_perm {α β : Type _} [LinearOrder β] (key : α → β) (a : α)
    (l : List α) : List.Perm (insertDesc key a l) (a :: l) := by
  induction l with
  | nil => simp [insertDesc]
  | cons b bs ih =>
    rw [insertDesc]
    split
    · exact List.Perm.refl _
    · exact List.Perm.trans (ih.cons b) (List.Perm.swap a b bs)

lemma sortDesc_perm {α β : Type _} [LinearOrder β] (key : α → β) (l : List α) :
    List.Perm (sortDesc key l) l := by
  suffices h : ∀ (l acc : List α),
      List.Perm (l.foldl (fun acc a => insertDesc key a acc) acc) (l ++ acc) by
    simpa using h l []
  intro l
  induction l with
  | nil => intro acc; simp
  | cons x xs ih =>
    intro acc
    rw [List.foldl_cons]
    refine List.Perm.trans (ih (insertDesc key x acc)) ?_
    refine List.Perm.trans (List.Perm.append_left xs (insertDesc_perm key x acc)) ?_
    exact List.perm_middle

lemma insertDesc_mem {α β : Type _} [LinearOrder β] {key : α → β} {a x : α}
    {l : List α} (h : x ∈ insertDesc key a l) : x = a ∨ x ∈ l := by
  have := (insertDesc_perm key a l).mem_iff.mp h
  simpa using this

lemma insertDesc_pairwise {α β : Type _} [LinearOrder β] {key : α → β} (a : α)
    {l : List α} (h : l.Pairwise (fun u v => key v ≤ key u)) :
    (insertDesc key a l).Pairwise (fun u v => key v ≤ key u) := by
  induction l with
  | nil => simp [insertDesc]
  | cons b bs ih =>
    rw [List.pairwise_cons] at h
    rw [insertDesc]
    split
    · next hlt =>
      refine List.Pairwise.cons ?_ (List.Pairwise.cons h.1 h.2)
      intro x hx
      rcases List.mem_cons.mp hx with rfl | hx
      · exact le_of_lt hlt
      · exact le_trans (h.1 x hx) (le_of_lt hlt)
    · next hge =>
      refine List.Pairwise.cons ?_ (ih h.2)
      intro x hx
      rcases insertDesc_mem hx with rfl | hx
      · exact le_of_not_lt hge
      · exact h.1 x hx

lemma sortDesc_pairwise {α β : Type _} [LinearOrder β] (key : α → β)
    (l : List α) :
    (sortDesc key l).Pairwise (fun u v => key v ≤ key u) := by
  suffices h : ∀ (l acc : List α),
      acc.Pairwise (fun u v => key v ≤ key u) →
      (l.foldl (fun acc a => insertDesc key a acc) acc).Pairwise
        (fun u v => key v ≤ key u) by
    exact h l [] (by simp)
  intro l
  induction l with
  | nil => intro acc hacc; simpa using hacc
  | cons x xs ih =>
    intro acc hacc
    rw [List.foldl_cons]
    exact ih _ (insertDesc_pairwise x hacc)

lemma sortDesc_length {α β : Type _} [LinearOrder β] (key : α → β)
    (l : List α) : (sortDesc key l).length = l.length :=
  (sortDesc_perm key l).length_eq

/-! ## Substring characterization of `occursIn` -/

lemma begins_iff {w s : Str} : begins w s = true ↔ ∃ t, s = w ++ t := by
  induction w generalizing s with
  | nil => simp [begins]
  | cons a as ih =>
    cases s with
    | nil => simp [begins]
    | cons b bs =>
      rw [begins]
      simp only [Bool.and_eq_true, decide_eq_true_eq]
      constructor
      · rintro ⟨rfl, h⟩
        obtain ⟨t, rfl⟩ := ih.mp h
        exact ⟨t, rfl⟩
      · rintro ⟨t, ht⟩
        rw [List.cons_append] at ht
        injection ht with h1 h2
        exact ⟨h1.symm ▸ rfl, ih.mpr ⟨t, h2⟩⟩

lemma occursIn_iff {w s : Str} :
    occursIn w s = true ↔ ∃ x y, s = x ++ w ++ y := by
  induction s with
  | nil =>
    rw [occursIn, begins_iff]
    constructor
    · rintro ⟨t, ht⟩
      exact ⟨[], t, by simpa using ht⟩
    · rintro ⟨x, y, hxy⟩
      have hx : x = [] := by
        cases x with
        | nil => rfl
        | cons c cs => simp at hxy
      subst hx
      exact ⟨y, by simpa using hxy⟩
  | cons c r ih =>
    rw [occursIn, Bool.or_eq_true, begins_iff, ih]
    constructor
    · rintro (⟨t, ht⟩ | ⟨x, y, hxy⟩)
      · exact ⟨[], t, by simpa using ht⟩
      · exact ⟨c :: x, y, by simp [hxy]⟩
    · rintro ⟨x, y, hxy⟩
      cases x with
      | nil =>
        left
        exact ⟨y, by simpa using hxy⟩
      | cons d ds =>
        right
        rw [List.cons_append, List.cons_append] at hxy
        injection hxy with h1 h2
        exact ⟨ds, y, h2⟩

lemma occursIn_append_self (w x : Str) : occursIn w (x ++ w) = true :=
  occursIn_iff.mpr ⟨x, [], by simp⟩

/-! ## Generic fold helpers -/

lemma foldl_opt_append {σ β : Type _} (f : σ → Option β) (l : List σ)
    (acc : List β) :
    l.foldl (fun acc p => acc ++ (f p).toList) acc = acc ++ l.filterMap f := by
  induction l generalizing acc with
  | nil => simp
  | cons x xs ih =>
    rw [List.foldl_cons, List.filterMap_cons]
    cases hfx : f x with
    | none => simp only [hfx, Option.toList_none, List.append_nil]; exact ih acc
    | some b =>
      simp only [hfx, Option.toList_some]
      rw [ih (acc ++ [b])]
      simp

lemma foldl_add_length {α : Type _} (l : List (List α)) (n : Nat) :
    l.foldl (fun m b => m + b.length) n = n + (l.map List.length).sum := by
  induction l generalizing n with
  | nil => simp
  | cons b bs ih =>
    rw [List.foldl_cons, ih]
    simp
    omega

lemma batches100_sum_aux {α : Type _} :
    ∀ (n : Nat) (l : List α), l.length ≤ n →
      ((batches100 l).map List.length).sum = l.length := by
  intro n
  induction n with
  | zero =>
    intro l hl
    have hnil : l = [] := by
      cases l with
      | nil => rfl
      | cons x xs => simp at hl
    subst hnil
    simp [batches100]
  | succ n ih =>
    intro l hl
    cases l with
    | nil => simp [batches100]
    | cons x xs =>
      have hd : (List.drop 100 (x :: xs)).length ≤ n := by
        rw [List.length_drop]
        simp only [List.length_cons]
        simp only [List.length_cons] at hl
        omega
      rw [batches100, List.map_cons, List.sum_cons, ih _ hd]
      simp [List.length_take, List.length_drop]
      omega

lemma batches100_sum {α : Type _} (l : List α) :
    ((batches100 l).map List.length).sum = l.length :=
  batches100_sum_aux l.length l le_rfl

/-! ## Decision-engine synthesis fallback (claim C1) -/

lemma filtered_confidence_sum (subs : List SubAnalysis) :
    ((subs.filter (fun a => a.confidence ≠ 0)).map (fun a => a.confidence)).sum
      = (subs.map (fun a => a.confidence)).sum := by
  induction subs with
  | nil => rfl
  | cons a rest ih =>
    rw [List.filter_cons]
    split
    · rw [List.map_cons, List.sum_cons, List.map_cons, List.sum_cons, ih]
    · next hpa =>
      have ha : a.confidence = 0 := by simpa using hpa
      rw [List.map_cons, List.sum_cons, ih, ha, zero_add]

/-- Claim C1 (amended): when the synthesis-stage LLM call fails or its
output is a non-JSON string, `_synthesize_analysis` returns the
deterministic fallback in which `isCovered` is the OR over the
sub-analyses' `is_addressed` flags, and `confidence_score` is the mean
of the *non-zero* confidence values (`0` when every confidence is
falsy) — with no `max(..., 0.7)` floor. -/
theorem synthesis_fallback_aggregation
    (parse : String → Option Synthesis) (llm_outcome : Except String String)
    (q : String) (subs : List SubAnalysis)
    (hfail : (∃ e, llm_outcome = .error e) ∨
      (∃ s, llm_outcome = .ok s ∧ parse s = none)) :
    synthesize_analysis parse llm_outcome q subs
      = create_fallback_synthesis q subs ∧
    (synthesize_analysis parse llm_outcome q subs).isCovered
      = subs.any (fun a => a.is_addressed) ∧
    (synthesize_analysis parse llm_outcome q subs).confidence_score
      = (if (subs.filter (fun a => a.confidence ≠ 0)).length = 0 then 0
         else (subs.map (fun a => a.confidence)).sum
           / ((subs.filter (fun a => a.confidence ≠ 0)).length : ℚ)) := by
  have hfb : synthesize_analysis parse llm_outcome q subs
      = create_fallback_synthesis q subs := by
    rcases hfail with ⟨e, rfl⟩ | ⟨s, rfl, hps⟩
    · rfl
    · rw [synthesize_analysis, hps]
  refine ⟨hfb, ?_, ?_⟩
  · rw [hfb, create_fallback_synthesis]
  · rw [hfb, create_fallback_synthesis]
    by_cases hf : subs.filter (fun a => a.confidence ≠ 0) = []
    · rw [hf]
      simp
    · have hmapne :
          (subs.filter (fun a => a.confidence ≠ 0)).map
            (fun a => a.confidence) ≠ [] := by
        simpa using hf
      have hlenne :
          ¬ (subs.filter (fun a => a.confidence ≠ 0)).length = 0 := by
        simpa [List.length_eq_zero] using hf
      simp only [if_pos hmapne, if_neg hlenne]
      rw [filtered_confidence_sum, List.length_map]

/-- Concrete sub-analyses for the C1 witness and counterexample. -/
def subsC1 : List SubAnalysis :=
  [{ sub_question := "s1", is_addressed := true, evidence := [], answer := "a",
     confidence := 1/2, limitations := [] },
   { sub_question := "s2", is_addressed := false, evidence := [], answer := "b",
     confidence := 0, limitations := ["lim"] }]

/-- Witness for C1: a concrete non-JSON synthesis response. -/
theorem synthesis_fallback_aggregation_witness :
    ((∃ e, (Except.ok "not json" : Except String String) = .error e) ∨
      (∃ s, (Except.ok "not json" : Except String String) = .ok s ∧
        (fun (_ : String) => (none : Option Synthesis)) s = none)) ∧
    (synthesize_analysis (fun _ => none) (.ok "not json") "q" subsC1
        = create_fallback_synthesis "q" subsC1 ∧
      (synthesize_analysis (fun _ => none) (.ok "not json") "q" subsC1).isCovered
        = subsC1.any (fun a => a.is_addressed) ∧
      (synthesize_analysis (fun _ => none) (.ok "not json") "q" subsC1).confidence_score
        = (if (subsC1.filter (fun a => a.confidence ≠ 0)).length = 0 then 0
           else (subsC1.map (fun a => a.confidence)).sum
             / ((subsC1.filter (fun a => a.confidence ≠ 0)).length : ℚ))) :=
  ⟨Or.inr ⟨"not json", rfl, rfl⟩,
    synthesis_fallback_aggregation (fun _ => none) (.ok "not json") "q" subsC1
      (Or.inr ⟨"not json", rfl, rfl⟩)⟩

/-- Counterexample to C1 as stated: with one sub-analysis of confidence
`0.5`, the fallback returns `confidence_score = 0.5`, not
`max(mean, 0.7) = 0.7` — the code applies no `0.7` floor. -/
theorem synthesis_fallback_no_floor_cex :
    (synthesize_analysis (fun _ => none) (.ok "not json") "q"
        [{ sub_question := "s1", is_addressed := true, evidence := [],
           answer := "a", confidence := 1/2, limitations := [] }]).confidence_score
      ≠ max ((1 : ℚ)/2) (7/10) := by
  rw [synthesize_analysis]
  simp only
  rw [create_fallback_synthesis]
  norm_num

/-! ## Per-question error isolation (claim C2) -/

/-- Claim C2: `process_queries` yields one answer per question in input
order; a question whose processing raises is replaced by the error
placeholder (`isCovered = false`, `confidence_score = 0.0`, exception
message contained in the rationale) and the other questions' entries
are untouched (entry `i` is determined by question `i` alone). -/
theorem per_question_error_isolation
    (outcome : String → Except String QueryAnswer) (questions : List String) :
    (process_queries outcome questions).length = questions.length ∧
    (∀ i q a, questions.get? i = some q → outcome q = .ok a →
      (process_queries outcome questions).get? i = some a) ∧
    (∀ i q e, questions.get? i = some q → outcome q = .error e →
      (process_queries outcome questions).get? i = some (errorAnswer q e) ∧
      (errorAnswer q e).isCovered = false ∧
      (errorAnswer q e).confidence_score = 0 ∧
      occursIn e.toList (errorAnswer q e).rationale.toList = true) := by
  refine ⟨by simp [process_queries], ?_, ?_⟩
  · intro i q a hq ha
    rw [process_queries, List.get?_map, hq]
    simp [ha]
  · intro i q e hq he
    refine ⟨?_, rfl, rfl, ?_⟩
    · rw [process_queries, List.get?_map, hq]
      simp [he]
    · have hdata : (errorAnswer q e).rationale.toList
          = "Failed to process question due to error: ".toList ++ e.toList := by
        rw [errorAnswer]
        exact String.data_append _ _
      rw [hdata]
      exact occursIn_append_self _ _

/-- A placeholder successful answer for the C2 witness. -/
def okAnswerC2 : QueryAnswer :=
  { question := "good", isCovered := true, conditions := []
    clause_reference := { page := none, clause_title := none }
    rationale := "fine", confidence_score := 1
    processing_metadata :=
      { model_used := llmModelName, embedding_model := embeddingModelName
        chunks_analyzed := 1, total_tokens := none } }

/-- The per-question outcomes for the C2 witness: the second question
raises, the first succeeds. -/
def outcomeC2 (q : String) : Except String QueryAnswer :=
  if q = "bad" then .error "boom" else .ok okAnswerC2

/-- Witness for C2 at a concrete two-question batch. -/
theorem per_question_error_isolation_witness :
    (["good", "bad"].get? 1 = some "bad") ∧ (outcomeC2 "bad" = .error "boom") ∧
    ((process_queries outcomeC2 ["good", "bad"]).get? 1
        = some (errorAnswer "bad" "boom") ∧
      (errorAnswer "bad" "boom").isCovered = false ∧
      (errorAnswer "bad" "boom").confidence_score = 0 ∧
      occursIn "boom".toList (errorAnswer "bad" "boom").rationale.toList
        = true) :=
  ⟨rfl, rfl,
    (per_question_error_isolation outcomeC2 ["good", "bad"]).2.2 1 "bad" "boom"
      rfl rfl⟩

/-! ## Empty retrieval hits the undefined `chunks` variable (claim C3) -/

/-- Claim C3: when retrieval returns an empty chunk list, the fallback
branch of `process_single_question` evaluates the unbound local
`chunks` and raises `NameError`, so the documented fallback over the
original document chunks never runs and the question is converted by
`process_queries` into the error placeholder answer with
`isCovered = false` and `confidence_score = 0.0`. -/
theorem empty_retrieval_name_error {α : Type _} (rerank_top_k : Nat)
    (rerankFn : List α → List α) (fast_eval : List α → Evaluation)
    (question : String) :
    process_single_question rerank_top_k ([] : List α) rerankFn fast_eval question
      = .error nameErrorChunks ∧
    process_queries
      (fun q =>
        process_single_question rerank_top_k ([] : List α) rerankFn fast_eval q)
      [question]
      = [errorAnswer question nameErrorChunks] ∧
    (errorAnswer question nameErrorChunks).isCovered = false ∧
    (errorAnswer question nameErrorChunks).confidence_score = 0 := by
  have h1 : process_single_question rerank_top_k ([] : List α) rerankFn
      fast_eval question = .error nameErrorChunks := by
    rw [process_single_question]
    simp
  refine ⟨h1, ?_, rfl, rfl⟩
  rw [process_queries]
  simp only [List.map_cons, List.map_nil]
  rw [show (process_single_question rerank_top_k ([] : List α) rerankFn
      fast_eval question) = .error nameErrorChunks from h1]

/-! ## Retrieval failure policy (claim C8) -/

/-- Claim C8: any exception inside `retrieve_relevant_chunks` — during
vector-store initialization or the embedding/similarity search — is
caught and the function returns `[]`; no exception propagates (the
embedding is a total function into a plain list). -/
theorem retrieval_failure_yields_empty
    (init_outcome : Except String Unit)
    (search_outcome : Except String (List ChunkDict))
    (query : Str) (use_hybrid_search : Bool)
    (h : (∃ e, init_outcome = .error e) ∨ (∃ e, search_outcome = .error e)) :
    retrieve_relevant_chunks init_outcome search_outcome query
      use_hybrid_search = [] := by
  rcases h with ⟨e, rfl⟩ | ⟨e, rfl⟩
  · rfl
  · cases init_outcome with
    | error e2 => rfl
    | ok u => rfl

/-- Witness for C8: a failed similarity search yields the empty list. -/
theorem retrieval_failure_yields_empty_witness :
    ((∃ e, (Except.ok () : Except String Unit) = .error e) ∨
      (∃ e, (Except.error "api down" : Except String (List ChunkDict))
        = .error e)) ∧
    retrieve_relevant_chunks (.ok ()) (.error "api down") "query".toList true
      = [] :=
  ⟨Or.inr ⟨"api down", rfl⟩,
    retrieval_failure_yields_empty (.ok ()) (.error "api down") "query".toList
      true (Or.inr ⟨"api down", rfl⟩)⟩

/-! ## Keyword-match semantics (claim C10) -/

/-- Claim C10: a query word counts as matched iff it occurs as a
contiguous substring of the lowercased chunk text (no word-boundary
check); the query words are deduplicated (each distinct word counts at
most once); and consequently `keyword_score` always lies in `[0, 1]`. -/
theorem keyword_match_semantics (query : Str) (r : ChunkDict) :
    (enhanceOne (queryWords query) r).keyword_matches
      = some ((queryWords query).countP
          (fun w => occursIn w (pyLower r.text))) ∧
    (∀ w : Str, occursIn w (pyLower r.text) = true ↔
      ∃ x y, pyLower r.text = x ++ w ++ y) ∧
    (queryWords query).Nodup ∧
    (∀ ks, (enhanceOne (queryWords query) r).keyword_score = some ks →
      0 ≤ ks ∧ ks ≤ 1) := by
  refine ⟨rfl, fun w => occursIn_iff, List.nodup_dedup _, ?_⟩
  intro ks hks
  have hval : (enhanceOne (queryWords query) r).keyword_score
      = some (if (queryWords query) ≠ [] then
          (((queryWords query).countP
            (fun w => occursIn w (pyLower r.text))) : ℚ)
            / (((queryWords query).length) : ℚ)
        else 0) := rfl
  rw [hval] at hks
  have hks2 := Option.some.inj hks
  subst hks2
  by_cases hq : (queryWords query) = []
  · rw [if_neg (by simp [hq])]
    norm_num
  · rw [if_pos hq]
    have hlen : 0 < ((queryWords query).length : ℚ) := by
      have : 0 < (queryWords query).length := List.length_pos.mpr hq
      exact_mod_cast this
    constructor
    · exact div_nonneg (by positivity) (le_of_lt hlen)
    · rw [div_le_one hlen]
      exact_mod_cast List.countP_le_length _

/-- Concrete search result for the C10 and C6 witnesses. -/
def rKnee : ChunkDict :=
  { id := "1", score := 1/2
    text := "Knee surgery is covered after 24 months.".toList
    page := some 1, document_id := "doc", chunk_index := 0 }

/-- Witness for C10: concrete query and chunk; the keyword score is
well-defined and lies in `[0, 1]`. -/
theorem keyword_match_semantics_witness :
    (enhanceOne (queryWords "knee".toList) rKnee).keyword_score
        = some ((1 : ℚ) / 1) ∧
    (0 ≤ (1 : ℚ) / 1 ∧ (1 : ℚ) / 1 ≤ 1) :=
  ⟨rfl, (keyword_match_semantics "knee".toList rKnee).2.2.2 ((1 : ℚ) / 1) rfl⟩

/-! ## Hybrid scoring (claim C6) -/

/-- Claim C6: hybrid scoring assigns each candidate
`keyword_score = matches / |query_words|` (`0` when the query has no
words) and `combined_score = 0.7 * vector_score + 0.3 * keyword_score`,
and returns the enhanced candidates sorted in descending order of
`combined_score` (a permutation of the enhanced inputs). -/
theorem hybrid_scoring_sorted (query : Str) (vector_results : List ChunkDict) :
    List.Perm (enhance_with_keyword_search query vector_results)
      (vector_results.map (enhanceOne (queryWords query))) ∧
    List.Pairwise
      (fun u v => v.combined_score.getD 0 ≤ u.combined_score.getD 0)
      (enhance_with_keyword_search query vector_results) ∧
    (∀ r ∈ vector_results,
      enhanceOne (queryWords query) r
        ∈ enhance_with_keyword_search query vector_results ∧
      (enhanceOne (queryWords query) r).keyword_score
        = some (if (queryWords query) ≠ [] then
            (((queryWords query).countP
              (fun w => occursIn w (pyLower r.text))) : ℚ)
              / (((queryWords query).length) : ℚ)
          else 0) ∧
      (enhanceOne (queryWords query) r).combined_score
        = some ((7/10) * r.score
            + (3/10) * ((enhanceOne (queryWords query) r).keyword_score.getD 0))) := by
  refine ⟨sortDesc_perm _ _, sortDesc_pairwise _ _, ?_⟩
  intro r hr
  refine ⟨?_, rfl, rfl⟩
  exact (sortDesc_perm _ _).mem_iff.mpr (List.mem_map_of_mem _ hr)

/-- A second concrete search result for the C6 witness. -/
def rDental : ChunkDict :=
  { id := "2", score := 9/10
    text := "Dental treatment only.".toList
    page := some 2, document_id := "doc", chunk_index := 1 }

/-- Witness for C6 at a concrete query and result list. -/
theorem hybrid_scoring_sorted_witness :
    (rKnee ∈ [rKnee, rDental]) ∧
    (enhanceOne (queryWords "knee surgery".toList) rKnee
        ∈ enhance_with_keyword_search "knee surgery".toList [rKnee, rDental] ∧
      (enhanceOne (queryWords "knee surgery".toList) rKnee).keyword_score
        = some (if (queryWords "knee surgery".toList) ≠ [] then
            (((queryWords "knee surgery".toList).countP
              (fun w => occursIn w (pyLower rKnee.text))) : ℚ)
              / (((queryWords "knee surgery".toList).length) : ℚ)
          else 0) ∧
      (enhanceOne (queryWords "knee surgery".toList) rKnee).combined_score
        = some ((7/10) * rKnee.score
            + (3/10) * ((enhanceOne (queryWords "knee surgery".toList)
                rKnee).keyword_score.getD 0))) :=
  ⟨List.mem_cons_self _ _,
    (hybrid_scoring_sorted "knee surgery".toList [rKnee, rDental]).2.2 rKnee
      (List.mem_cons_self _ _)⟩

/-! ## Vector storage bookkeeping (claim C9) -/

lemma select_best_chunks_length {chunks : List DocumentChunk}
    {max_chunks : Nat} (h : max_chunks < chunks.length) :
    (select_best_chunks chunks max_chunks).length = max_chunks := by
  rw [select_best_chunks, if_neg (by omega)]
  rw [List.length_map, List.length_take, sortDesc_length, List.length_map]
  omega

lemma store_document_chunks_stored (embeddings : List (List ℚ))
    (chunks : List DocumentChunk) (docid : String) :
    store_document_chunks embeddings chunks docid
      = min
          (if maxStoreChunks < chunks.length then maxStoreChunks
           else chunks.length)
          embeddings.length := by
  rw [store_document_chunks]
  simp only [foldl_add_length, batches100_sum, List.length_map,
    List.enum_length, List.length_zip]
  split
  · next h => rw [select_best_chunks_length h]; omega
  · omega

/-- Claim C9: `store_document` reports `success = true` iff the stored
vector count equals the input chunk count; when the document yields
more than 50 chunks the store down-selects to at most 50 vectors
(exactly 50 when the embedding client returns one embedding per
selected chunk), so `success` is always `false` for such documents. -/
theorem store_document_overflow (embeddings : List (List ℚ))
    (chunks : List DocumentChunk) (docid : String) :
    ((store_document embeddings chunks docid).success = true ↔
      (store_document embeddings chunks docid).stored_chunks
        = chunks.length) ∧
    (maxStoreChunks < chunks.length →
      (store_document embeddings chunks docid).stored_chunks ≤ maxStoreChunks ∧
      (store_document embeddings chunks docid).success = false) ∧
    (maxStoreChunks < chunks.length →
      embeddings.length = maxStoreChunks →
      (store_document embeddings chunks docid).stored_chunks
        = maxStoreChunks ∧
      (store_document embeddings chunks docid).success = false) := by
  have hstored : (store_document embeddings chunks docid).stored_chunks
      = min
          (if maxStoreChunks < chunks.length then maxStoreChunks
           else chunks.length)
          embeddings.length := store_document_chunks_stored embeddings chunks docid
  have hsucc : (store_document embeddings chunks docid).success
      = ((store_document embeddings chunks docid).stored_chunks
          == chunks.length) := rfl
  constructor
  · rw [hsucc]
    exact beq_iff_eq
  · have hbound : maxStoreChunks < chunks.length →
        (store_document embeddings chunks docid).stored_chunks
          ≤ maxStoreChunks := by
      intro h
      rw [hstored, if_pos h]
      exact Nat.min_le_left _ _
    have hfalse : maxStoreChunks < chunks.length →
        (store_document embeddings chunks docid).success = false := by
      intro h
      rw [hsucc, beq_eq_false_iff_ne]
      have := hbound h
      omega
    refine ⟨fun h => ⟨hbound h, hfalse h⟩, fun h hemb => ⟨?_, hfalse h⟩⟩
    rw [hstored, if_pos h, hemb]
    exact Nat.min_self _

/-- A one-paragraph chunk used to build the C9 witness input. -/
def chunkC9 : DocumentChunk :=
  { text := "policy text: coverage applies.".toList
    metadata := { chunk_index := 0, chunk_size := 30, paragraph_count := 1 } }

/-- Witness for C9: 51 chunks, 50 embeddings — exactly 50 vectors are
stored and `success` is `false`. -/
theorem store_document_overflow_witness :
    (maxStoreChunks < (List.replicate 51 chunkC9).length) ∧
    ((List.replicate 50 ([] : List ℚ)).length = maxStoreChunks) ∧
    ((store_document (List.replicate 50 []) (List.replicate 51 chunkC9)
        "doc").stored_chunks = maxStoreChunks ∧
      (store_document (List.replicate 50 []) (List.replicate 51 chunkC9)
        "doc").success = false) :=
  ⟨by simp [maxStoreChunks], by simp [maxStoreChunks],
    (store_document_overflow (List.replicate 50 []) (List.replicate 51 chunkC9)
        "doc").2.2 (by simp [maxStoreChunks]) (by simp [maxStoreChunks])⟩

/-! ## LLM reranking (claim C7) -/

/-- Spec-side characterization of one step of the ranked loop
(written from the spec's description of the reordering). -/
def rankedSpec {α : Type _} (top : List α) (ranking : List Int)
    (p : Nat × Int) : Option (RerankEntry α) :=
  if 1 ≤ p.2 ∧ p.2 ≤ (top.length : Int) then
    (top.get? (p.2.toNat - 1)).map (fun c =>
      { chunk := c
        llm_rank := some (p.1 + 1)
        llm_score := some (1 - (p.1 : ℚ) / (ranking.length : ℚ)) })
  else none

/-- Spec-side characterization of one step of the omitted-candidates
loop: a candidate whose 1-based index is absent from the ranking is
emitted with a zero relevance score. -/
def omittedSpec {α : Type _} (ranking : List Int) (p : Nat × α) :
    Option (RerankEntry α) :=
  if ((p.1 : Int) + 1) ∈ ranking then none
  else some { chunk := p.2
              llm_rank := some (ranking.length + 1)
              llm_score := some 0 }

lemma rerankRankedLoop_eq {α : Type _} (top : List α) (ranking : List Int) :
    rerankRankedLoop top ranking
      = ranking.enum.filterMap (rankedSpec top ranking) := by
  rw [rerankRankedLoop]
  have hfun : (fun (acc : List (RerankEntry α)) (p : Nat × Int) =>
      if 1 ≤ p.2 ∧ p.2 ≤ (top.length : Int) then
        match top.get? (p.2.toNat - 1) with
        | some c =>
          acc ++ [{ chunk := c
                    llm_rank := some (p.1 + 1)
                    llm_score := some (1 - (p.1 : ℚ) / (ranking.length : ℚ)) }]
        | none => acc
      else acc)
      = (fun acc p => acc ++ (rankedSpec top ranking p).toList) := by
    funext acc p
    rw [rankedSpec]
    split
    · cases h : top.get? (p.2.toNat - 1) with
      | none => simp
      | some c => rfl
    · simp
  rw [hfun]
  have := foldl_opt_append (rankedSpec top ranking) ranking.enum []
  simpa using this

lemma rerankOmittedLoop_eq {α : Type _} (top : List α) (ranking : List Int) :
    rerankOmittedLoop top ranking
      = top.enum.filterMap (omittedSpec ranking) := by
  rw [rerankOmittedLoop]
  have hfun : (fun (acc : List (RerankEntry α)) (p : Nat × α) =>
      if ((p.1 : Int) + 1) ∈ ranking then acc
      else acc ++ [{ chunk := p.2
                     llm_rank := some (ranking.length + 1)
                     llm_score := some 0 }])
      = (fun acc p => acc ++ (omittedSpec (α := α) ranking p).toList) := by
    funext acc p
    rw [omittedSpec]
    split
    · simp
    · rfl
  rw [hfun]
  have := foldl_opt_append (omittedSpec ranking) top.enum []
  simpa using this

/-- Claim C7 (amended): on a parsed ranking, `rerank_chunks` reorders
`top_chunks = chunks[:2 * rerank_top_k]` according to the 1-based
indices, appends every omitted candidate after the ranked ones with a
zero relevance score, and then truncates the whole list to
`rerank_top_k` entries (so omitted candidates survive only if they fall
within the first `rerank_top_k`); on an unparseable ranking it returns
the pre-rerank order truncated to `rerank_top_k`. -/
theorem rerank_reorder_truncate {α : Type _} (rerank_top_k : Nat)
    (chunks : List α) (ranking : List Int) (err : String) :
    rerank_chunks rerank_top_k (.error err) chunks
      = (chunks.take rerank_top_k).map
          (fun c => ({ chunk := c } : RerankEntry α)) ∧
    rerank_chunks rerank_top_k (.ok ranking) chunks
      = ((ranking.enum.filterMap
            (rankedSpec (chunks.take (rerank_top_k * 2)) ranking))
          ++ ((chunks.take (rerank_top_k * 2)).enum.filterMap
            (omittedSpec ranking))).take rerank_top_k ∧
    (∀ e ∈ (chunks.take (rerank_top_k * 2)).enum.filterMap
        (omittedSpec (α := α) ranking),
      e.llm_score = some 0) ∧
    (∀ i c, (chunks.take (rerank_top_k * 2)).get? i = some c →
      ((i : Int) + 1) ∉ ranking →
      ({ chunk := c, llm_rank := some (ranking.length + 1)
         llm_score := some 0 } : RerankEntry α)
        ∈ (chunks.take (rerank_top_k * 2)).enum.filterMap
            (omittedSpec ranking)) := by
  refine ⟨?_, ?_, ?_, ?_⟩
  · cases chunks with
    | nil => simp [rerank_chunks]
    | cons c cs =>
      rw [rerank_chunks]
      simp only [List.isEmpty_cons, Bool.false_eq_true, if_false]
      rw [List.take_take]
      rw [show min rerank_top_k (rerank_top_k * 2) = rerank_top_k from by omega]
  · cases chunks with
    | nil =>
      have h1 : rerank_chunks rerank_top_k (.ok ranking) ([] : List α)
          = [] := rfl
      rw [h1, List.take_nil, List.enum_nil, List.filterMap_nil,
        List.append_nil]
      have hfm : ranking.enum.filterMap (rankedSpec ([] : List α) ranking)
          = [] := by
        rw [List.filterMap_eq_nil]
        intro p hp
        rw [rankedSpec]
        split
        · next hcond =>
          exfalso
          simp only [List.length_nil] at hcond
          omega
        · rfl
      rw [hfm, List.take_nil]
    | cons c cs =>
      rw [rerank_chunks]
      simp only [List.isEmpty_cons, Bool.false_eq_true, if_false]
      rw [rerankRankedLoop_eq, rerankOmittedLoop_eq]
  · intro e he
    obtain ⟨p, _, hp⟩ := List.mem_filterMap.mp he
    rw [omittedSpec] at hp
    by_cases hmem : ((p.1 : Int) + 1) ∈ ranking
    · rw [if_pos hmem] at hp
      exact absurd hp (by simp)
    · rw [if_neg hmem] at hp
      rw [← Option.some.inj hp]
  · intro i c hget hnot
    refine List.mem_filterMap.mpr ⟨(i, c), ?_, ?_⟩
    · exact List.mem_enum_iff_get?.mpr hget
    · rw [omittedSpec, if_neg hnot]

/-- Witness for C7: an omitted index (2 of `[10, 20]`, ranking `[1]`)
appears in the omitted part with zero relevance score. -/
theorem rerank_reorder_truncate_witness :
    (([10, 20] : List Nat).take (3 * 2)).get? 1 = some 20 ∧
    (((1 : Nat) : Int) + 1) ∉ ([1] : List Int) ∧
    ({ chunk := 20, llm_rank := some 2, llm_score := some 0 }
        : RerankEntry Nat)
      ∈ (([10, 20] : List Nat).take (3 * 2)).enum.filterMap
          (omittedSpec [1]) :=
  ⟨rfl, by decide,
    (rerank_reorder_truncate 3 ([10, 20] : List Nat) [1] "x").2.2.2 1 20 rfl
      (by decide)⟩

/-- Counterexample to C7 as stated: with `rerank_top_k = 3` (the
configured default), four candidates and the ranking `[1, 2, 3]`, the
omitted candidate 4 is appended after the ranked ones but then cut by
the final `[:rerank_top_k]` truncation, so it does not appear in the
returned list at all. -/
theorem rerank_truncation_cex :
    ((4 : Int) ∉ ([1, 2, 3] : List Int)) ∧
    ((4 : Nat) ∈ ([1, 2, 3, 4] : List Nat)) ∧
    (∀ e ∈ rerank_chunks 3 (.ok [1, 2, 3]) ([1, 2, 3, 4] : List Nat),
      e.chunk ≠ 4) := by
  refine ⟨by decide, by decide, ?_⟩
  decide

/-! ## Chunker: per-chunk shape invariant (claims C4 and C5) -/

/-- The shape every emitted chunk satisfies: text longer than
`min_chunk_size`, already fully stripped (so non-empty after trimming),
and no longer than the recorded `chunk_size` (the length of the
*un-stripped* buffer). -/
def chunkOk (c : DocumentChunk) : Prop :=
  minChunkSize < c.text.length ∧ pyStrip c.text = c.text ∧
    c.text.length ≤ c.metadata.chunk_size

lemma mkChunk_ok {current : Str} (idx : Nat)
    (h : minChunkSize < (pyStrip current).length) :
    chunkOk (mkChunk current idx) :=
  ⟨h, pyStrip_idem current, pyStrip_length_le current⟩

/-- An explicit case description of `chunkStep`, used by the fold
invariants. -/
lemma chunkStep_eq (st : ChunkState) (para : Str) :
    chunkStep st para =
      if (if st.current = [] then para
          else st.current ++ sepNL ++ para).length ≤ optimalChunkSize then
        { st with current := if st.current = [] then para
            else st.current ++ sepNL ++ para }
      else
        { current :=
            if st.current ≠ [] ∧ overlapSize < st.current.length then
              st.current.drop (st.current.length - overlapSize) ++ sepNL ++ para
            else para
          idx :=
            if st.current ≠ [] ∧ minChunkSize < (pyStrip st.current).length then
              st.idx + 1
            else st.idx
          chunks :=
            if st.current ≠ [] ∧ minChunkSize < (pyStrip st.current).length then
              st.chunks ++ [mkChunk st.current st.idx]
            else st.chunks } := rfl

lemma chunkStep_chunks_ok {st : ChunkState} {para : Str}
    (h : ∀ c ∈ st.chunks, chunkOk c) :
    ∀ c ∈ (chunkStep st para).chunks, chunkOk c := by
  intro c hc
  rw [chunkStep_eq] at hc
  by_cases hfit : (if st.current = [] then para
      else st.current ++ sepNL ++ para).length ≤ optimalChunkSize
  · rw [if_pos hfit] at hc
    exact h c hc
  · rw [if_neg hfit] at hc
    have hc2 : c ∈ (if st.current ≠ [] ∧
        minChunkSize < (pyStrip st.current).length then
          st.chunks ++ [mkChunk st.current st.idx]
        else st.chunks) := hc
    by_cases hsave : st.current ≠ [] ∧
        minChunkSize < (pyStrip st.current).length
    · rw [if_pos hsave] at hc2
      rcases List.mem_append.mp hc2 with h1 | h2
      · exact h c h1
      · rw [List.mem_singleton] at h2
        subst h2
        exact mkChunk_ok st.idx hsave.2
    · rw [if_neg hsave] at hc2
      exact h c hc2

lemma fold_chunks_ok (paras : List Str) (st : ChunkState)
    (h : ∀ c ∈ st.chunks, chunkOk c) :
    ∀ c ∈ (paras.foldl chunkStep st).chunks, chunkOk c := by
  induction paras generalizing st with
  | nil => exact h
  | cons p ps ih =>
    rw [List.foldl_cons]
    exact ih (chunkStep st p) (chunkStep_chunks_ok h)

lemma finalizeChunks_ok {final : ChunkState}
    (h : ∀ c ∈ final.chunks, chunkOk c) :
    ∀ c ∈ finalizeChunks final, chunkOk c := by
  intro c hc
  rw [finalizeChunks] at hc
  split at hc
  · next hcond =>
    rcases List.mem_append.mp hc with h1 | h2
    · exact h c h1
    · rw [List.mem_singleton] at h2
      subst h2
      exact mkChunk_ok _ hcond.2
  · exact h c hc

lemma split_chunks_ok (text : Str) :
    ∀ c ∈ split_text_into_chunks text, chunkOk c := by
  intro c hc
  rw [split_text_into_chunks] at hc
  split at hc
  · simp at hc
  · exact finalizeChunks_ok
      (fold_chunks_ok (paragraphsOf (pyStrip text)) ⟨[], 0, []⟩
        (by intro c hc2; simp at hc2)) c hc

/-! ## Chunker: the at-least-one-chunk guarantee (claim C4)

The fold invariant: either a chunk has already been emitted, or the
running buffer ends in a non-whitespace character, carries at most
`overlap_size + 2` strippable characters, and its stripped length
dominates `min(J, min_chunk_size + 1)` where `J` is the length of the
blank-line join of the paragraphs processed so far. -/

/-- The length added to the paragraph join by each further paragraph
(two separator characters plus the paragraph). -/
def extraLen (ps : List Str) : Nat := (ps.map (fun p => p.length + 2)).sum

lemma joinParas_cons_length (p : Str) (ps : List Str) :
    (joinParas (p :: ps)).length = p.length + extraLen ps := by
  induction ps generalizing p with
  | nil => simp [joinParas, extraLen]
  | cons q ps ih =>
    show (p ++ sepNL ++ joinParas (q :: ps)).length = _
    rw [List.length_append, List.length_append, ih q]
    simp [extraLen, sepNL]
    omega

lemma stripLeft_ne_nil {cur : Str} (h : stripRight cur = cur)
    (hne : cur ≠ []) : stripLeft cur ≠ [] := by
  intro hl
  have hall : ∀ x ∈ cur, pyIsSpace x := List.dropWhile_eq_nil_iff.mp hl
  have hrev : cur.reverse.dropWhile pyIsSpace = [] :=
    List.dropWhile_eq_nil_iff.mpr (fun x hx => hall x (List.mem_reverse.mp hx))
  have hnil : stripRight cur = [] := by rw [stripRight, hrev]; rfl
  rw [h] at hnil
  exact hne hnil

lemma stripLeft_append_of_ne {x : Str} (h : stripLeft x ≠ []) (y : Str) :
    stripLeft (x ++ y) = stripLeft x ++ y := by
  rw [stripLeft, List.dropWhile_append, if_neg]
  · rfl
  · simpa [List.isEmpty_iff, stripLeft] using h

/-- The stripped form of `x ++ sepNL ++ p` for a well-formed trailing
paragraph `p`. -/
lemma pyStrip_glue {p : Str} (hp : PPara p) (x : Str) :
    pyStrip (x ++ sepNL ++ p) = stripLeft (x ++ sepNL) ++ p :=
  pyStrip_append_of_stripped hp.left hp.right hp.1 (x ++ sepNL)

/-- The right-stripped form of `x ++ sepNL ++ p` for a well-formed
trailing paragraph `p`. -/
lemma stripRight_glue {p : Str} (hp : PPara p) (x : Str) :
    stripRight (x ++ sepNL ++ p) = x ++ sepNL ++ p :=
  stripRight_append_of_stripped hp.right hp.1 (x ++ sepNL)

/-- The fold invariant for the no-chunk-yet case. -/
def goodState (J : Nat) (st : ChunkState) : Prop :=
  st.chunks ≠ [] ∨
    (st.current ≠ [] ∧ stripRight st.current = st.current ∧
     st.current.length ≤ (pyStrip st.current).length + (overlapSize + 2) ∧
     min J (minChunkSize + 1) ≤ (pyStrip st.current).length)

lemma chunkStep_chunks_ne {st : ChunkState} {para : Str}
    (h : st.chunks ≠ []) : (chunkStep st para).chunks ≠ [] := by
  rw [chunkStep_eq]
  by_cases hfit : (if st.current = [] then para
      else st.current ++ sepNL ++ para).length ≤ optimalChunkSize
  · rw [if_pos hfit]
    exact h
  · rw [if_neg hfit]
    show (if st.current ≠ [] ∧ minChunkSize < (pyStrip st.current).length then
        st.chunks ++ [mkChunk st.current st.idx] else st.chunks) ≠ []
    split
    · simp
    · exact h

lemma chunkStep_good {J : Nat} {st : ChunkState} {p : Str} (hp : PPara p)
    (hst : goodState J st) :
    goodState (J + (p.length + 2)) (chunkStep st p) := by
  have hmc : minChunkSize = 200 := rfl
  have hoc : optimalChunkSize = 3072 := rfl
  have hol : overlapSize = 150 := rfl
  have hsep : sepNL.length = 2 := rfl
  rcases hst with hch | ⟨hne, hsr, hlb, hmin⟩
  · exact Or.inl (chunkStep_chunks_ne hch)
  · rw [chunkStep_eq, if_neg hne]
    have hLle : (pyStrip st.current).length ≤ (stripLeft st.current).length :=
      stripRight_length_le (stripLeft st.current)
    by_cases hfit : (st.current ++ sepNL ++ p).length ≤ optimalChunkSize
    · rw [if_pos hfit]
      refine Or.inr ⟨by simp [hne], ?_, ?_, ?_⟩
      · exact stripRight_glue hp st.current
      · have hps : pyStrip (st.current ++ sepNL ++ p)
            = stripLeft (st.current ++ sepNL) ++ p := pyStrip_glue hp st.current
        rw [hps, stripLeft_append_of_ne (stripLeft_ne_nil hsr hne) sepNL]
        simp only [List.length_append, hsep]
        omega
      · have hps : pyStrip (st.current ++ sepNL ++ p)
            = stripLeft (st.current ++ sepNL) ++ p := pyStrip_glue hp st.current
        rw [hps, stripLeft_append_of_ne (stripLeft_ne_nil hsr hne) sepNL]
        simp only [List.length_append, hsep]
        omega
    · rw [if_neg hfit]
      by_cases hsave : st.current ≠ [] ∧
          minChunkSize < (pyStrip st.current).length
      · refine Or.inl ?_
        show (if st.current ≠ [] ∧ minChunkSize < (pyStrip st.current).length
            then st.chunks ++ [mkChunk st.current st.idx]
            else st.chunks) ≠ []
        rw [if_pos hsave]
        simp
      · have hjs200 : (pyStrip st.current).length ≤ minChunkSize := by
          rcases not_and_or.mp hsave with h1 | h2
          · exact absurd hne (by simpa using h1)
          · omega
        have hbig : 3072 < st.current.length + 2 + p.length := by
          rw [not_le] at hfit
          simp only [List.length_append, hsep, hoc] at hfit
          omega
        by_cases hov : st.current ≠ [] ∧ overlapSize < st.current.length
        · have hdrop : (st.current.drop
              (st.current.length - overlapSize)).length = overlapSize := by
            rw [List.length_drop]
            omega
          refine Or.inr ⟨?_, ?_, ?_, ?_⟩
          · show (if st.current ≠ [] ∧ overlapSize < st.current.length then
                st.current.drop (st.current.length - overlapSize) ++ sepNL ++ p
              else p) ≠ []
            rw [if_pos hov]
            simp [hp.1]
          · show stripRight (if st.current ≠ [] ∧
                overlapSize < st.current.length then
                  st.current.drop (st.current.length - overlapSize)
                    ++ sepNL ++ p
                else p)
              = (if st.current ≠ [] ∧ overlapSize < st.current.length then
                  st.current.drop (st.current.length - overlapSize)
                    ++ sepNL ++ p
                else p)
            rw [if_pos hov]
            exact stripRight_glue hp _
          · show (if st.current ≠ [] ∧ overlapSize < st.current.length then
                st.current.drop (st.current.length - overlapSize)
                  ++ sepNL ++ p
              else p).length
              ≤ (pyStrip (if st.current ≠ [] ∧
                  overlapSize < st.current.length then
                    st.current.drop (st.current.length - overlapSize)
                      ++ sepNL ++ p
                  else p)).length + (overlapSize + 2)
            rw [if_pos hov, pyStrip_glue hp _]
            simp only [List.length_append, hsep, hdrop]
            omega
          · show min (J + (p.length + 2)) (minChunkSize + 1)
              ≤ (pyStrip (if st.current ≠ [] ∧
                  overlapSize < st.current.length then
                    st.current.drop (st.current.length - overlapSize)
                      ++ sepNL ++ p
                  else p)).length
            rw [if_pos hov, pyStrip_glue hp _]
            simp only [List.length_append]
            omega
        · have hcurlen : st.current.length ≤ overlapSize := by
            rcases not_and_or.mp hov with h1 | h2
            · exact absurd hne (by simpa using h1)
            · omega
          refine Or.inr ⟨?_, ?_, ?_, ?_⟩
          · show (if st.current ≠ [] ∧ overlapSize < st.current.length then
                st.current.drop (st.current.length - overlapSize)
                  ++ sepNL ++ p
              else p) ≠ []
            rw [if_neg hov]
            exact hp.1
          · show stripRight (if st.current ≠ [] ∧
                overlapSize < st.current.length then
                  st.current.drop (st.current.length - overlapSize)
                    ++ sepNL ++ p
                else p)
              = (if st.current ≠ [] ∧ overlapSize < st.current.length then
                  st.current.drop (st.current.length - overlapSize)
                    ++ sepNL ++ p
                else p)
            rw [if_neg hov]
            exact hp.right
          · show (if st.current ≠ [] ∧ overlapSize < st.current.length then
                st.current.drop (st.current.length - overlapSize)
                  ++ sepNL ++ p
              else p).length
              ≤ (pyStrip (if st.current ≠ [] ∧
                  overlapSize < st.current.length then
                    st.current.drop (st.current.length - overlapSize)
                      ++ sepNL ++ p
                  else p)).length + (overlapSize + 2)
            rw [if_neg hov, hp.2]
            omega
          · show min (J + (p.length + 2)) (minChunkSize + 1)
              ≤ (pyStrip (if st.current ≠ [] ∧
                  overlapSize < st.current.length then
                    st.current.drop (st.current.length - overlapSize)
                      ++ sepNL ++ p
                  else p)).length
            rw [if_neg hov, hp.2]
            omega

lemma chunkStep_first {p : Str} (hp : PPara p) :
    goodState p.length (chunkStep ⟨[], 0, []⟩ p) := by
  have hstep : chunkStep ⟨[], 0, []⟩ p = ⟨p, 0, []⟩ := by
    rw [chunkStep_eq, if_pos rfl]
    by_cases hfit : p.length ≤ optimalChunkSize
    · rw [if_pos hfit]
    · rw [if_neg hfit, if_neg (by simp), if_neg (by simp), if_neg (by simp)]
  rw [hstep]
  refine Or.inr ⟨hp.1, hp.right, ?_, ?_⟩
  · show p.length ≤ (pyStrip p).length + (overlapSize + 2)
    rw [hp.2]
    omega
  · show min p.length (minChunkSize + 1) ≤ (pyStrip p).length
    rw [hp.2]
    exact min_le_left _ _

lemma fold_good (ps : List Str) (J : Nat) (st : ChunkState)
    (hps : ∀ p ∈ ps, PPara p) (hst : goodState J st) :
    goodState (J + extraLen ps) (ps.foldl chunkStep st) := by
  induction ps generalizing J st with
  | nil => simpa [extraLen] using hst
  | cons p ps ih =>
    rw [List.foldl_cons]
    have h2 := chunkStep_good (hps p (List.mem_cons_self _ _)) hst
    have h3 := ih (J + (p.length + 2)) (chunkStep st p)
      (fun q hq => hps q (List.mem_cons_of_mem _ hq)) h2
    have harith : J + (p.length + 2) + extraLen ps = J + extraLen (p :: ps) := by
      simp [extraLen]
      omega
    rwa [harith] at h3

lemma finalizeChunks_ne {J : Nat} {final : ChunkState}
    (hg : goodState J final) (hJ : minChunkSize < J) :
    finalizeChunks final ≠ [] := by
  have hmc : minChunkSize = 200 := rfl
  rw [finalizeChunks]
  rcases hg with hch | ⟨hne, _, _, hmin⟩
  · split
    · simp
    · exact hch
  · rw [if_pos ⟨hne, by omega⟩]
    simp

lemma split_text_nonempty {text : Str}
    (h : minChunkSize < (joinParas (paragraphsOf (pyStrip text))).length) :
    split_text_into_chunks text ≠ [] := by
  have hmc : minChunkSize = 200 := rfl
  have htne : pyStrip text ≠ [] := by
    intro ht
    rw [ht] at h
    have hpo : paragraphsOf ([] : Str) = [] := by decide
    rw [hpo] at h
    have hjn : joinParas ([] : List Str) = [] := rfl
    rw [hjn] at h
    simp at h
  rw [split_text_into_chunks, if_neg htne]
  cases hps : paragraphsOf (pyStrip text) with
  | nil =>
    rw [hps] at h
    have hjn : joinParas ([] : List Str) = [] := rfl
    rw [hjn] at h
    simp at h
  | cons p ps =>
    have hpp := paragraphsOf_PPara (t := pyStrip text)
    rw [hps] at hpp h
    have hgood : goodState (p.length + extraLen ps)
        ((p :: ps).foldl chunkStep ⟨[], 0, []⟩) := by
      rw [List.foldl_cons]
      exact fold_good ps p.length _
        (fun q hq => hpp q (List.mem_cons_of_mem _ hq))
        (chunkStep_first (hpp p (List.mem_cons_self _ _)))
    have hJ : minChunkSize < p.length + extraLen ps := by
      rw [← joinParas_cons_length]
      exact h
    exact finalizeChunks_ne hgood hJ

/-- Claim C4 (amended): empty or whitespace-only input yields exactly
zero chunks without error; every returned chunk's text length is
≥ `min_chunk_size`; and at least one chunk is returned whenever the
*normalized* text — the chunker's stripped paragraphs rejoined with
blank-line separators — is strictly longer than `min_chunk_size` (the
bound is strict and measured after normalization: a stripped text of
length exactly 200, or one padded by whitespace-only paragraphs, can
yield zero chunks). -/
theorem chunker_bounds (text : Str) :
    (pyStrip text = [] → split_text_into_chunks text = []) ∧
    (∀ c ∈ split_text_into_chunks text, minChunkSize ≤ c.text.length) ∧
    (minChunkSize < (joinParas (paragraphsOf (pyStrip text))).length →
      split_text_into_chunks text ≠ []) := by
  refine ⟨?_, ?_, fun h => split_text_nonempty h⟩
  · intro h
    rw [split_text_into_chunks, if_pos h]
  · intro c hc
    exact le_of_lt (split_chunks_ok text c hc).1

/-- Witness for C4: a 201-character text produces at least one chunk. -/
theorem chunker_bounds_witness :
    (minChunkSize <
      (joinParas (paragraphsOf (pyStrip (List.replicate 201 'a')))).length) ∧
    split_text_into_chunks (List.replicate 201 'a') ≠ [] :=
  ⟨by decide, (chunker_bounds (List.replicate 201 'a')).2.2 (by decide)⟩

/-- Counterexample to C4 as stated: a stripped text of length exactly
`min_chunk_size = 200` yields zero chunks, because the emission guard
is strict (`len(current_chunk.strip()) > min_chunk_size`). -/
theorem chunker_min_size_cex :
    minChunkSize ≤ (pyStrip (List.replicate 200 'a')).length ∧
    split_text_into_chunks (List.replicate 200 'a') = [] :=
  ⟨by decide, by decide⟩

/-- Claim C5 (amended): every produced `DocumentChunk` has text that is
non-empty after trimming (it is stored fully stripped), and its
`chunk_size` metadata records the length of the *pre-strip* buffer,
which bounds the text length from above but can exceed it when the
overlap carried leading whitespace into the buffer. -/
theorem chunk_metadata_invariant (text : Str) :
    ∀ c ∈ split_text_into_chunks text,
      pyStrip c.text = c.text ∧ c.text ≠ [] ∧
      c.text.length ≤ c.metadata.chunk_size := by
  intro c hc
  obtain ⟨h1, h2, h3⟩ := split_chunks_ok text c hc
  refine ⟨h2, ?_, h3⟩
  intro hnil
  rw [hnil] at h1
  simp at h1

/-- The single chunk produced from 201 copies of `a`, used as the C5
witness. -/
def chunkC4 : DocumentChunk :=
  { text := List.replicate 201 'a'
    metadata := { chunk_index := 0, chunk_size := 201, paragraph_count := 1 } }

/-- Witness for C5 at a concrete produced chunk. -/
theorem chunk_metadata_invariant_witness :
    (chunkC4 ∈ split_text_into_chunks (List.replicate 201 'a')) ∧
    (pyStrip chunkC4.text = chunkC4.text ∧ chunkC4.text ≠ [] ∧
      chunkC4.text.length ≤ chunkC4.metadata.chunk_size) :=
  ⟨by decide,
    chunk_metadata_invariant (List.replicate 201 'a') chunkC4 (by decide)⟩

/-! ### Symbolic evaluation of the chunker on the C5 counterexample

The input has a 3050-character first paragraph ending in
`' '` at the 150-character overlap boundary and a 300-character second
paragraph; the second buffer therefore starts with a stripped-away
space, making `chunk_size` one larger than the stored text. -/

/-- First paragraph of the C5 input (length 3050, a space at
position 2900). -/
def paraC5A : Str :=
  List.replicate 2900 'b' ++ ([' '] ++ List.replicate 149 'c')

/-- Second paragraph of the C5 input (length 300). -/
def paraC5B : Str := List.replicate 300 'd'

/-- The C5 counterexample input text. -/
def textC5 : Str := paraC5A ++ ('\n' :: '\n' :: paraC5B)

/-- The second buffer the chunker accumulates on `textC5`: the
150-character overlap (beginning with the space) plus the separator and
the second paragraph — length 452, stripped length 451. -/
def ncC5 : Str := ([' '] ++ List.replicate 149 'c') ++ sepNL ++ paraC5B

lemma splitOn2NL_sep (acc B : Str) :
    splitOn2NL acc ('\n' :: '\n' :: B) = acc.reverse :: splitOn2NL [] B := rfl

lemma splitOn2NL_cons_ne (acc : Str) {a : Char} (ha : a ≠ '\n') (l : Str) :
    splitOn2NL acc (a :: l) = splitOn2NL (a :: acc) l := by
  cases l with
  | nil => simp [splitOn2NL, ha]
  | cons b l2 =>
    by_cases hb : b = '\n'
    · subst hb
      simp [splitOn2NL, ha]
    · simp [splitOn2NL, ha, hb]

lemma splitOn2NL_append_no_nl {A : Str} (hA : ∀ c ∈ A, c ≠ '\n') :
    ∀ (acc B : Str), splitOn2NL acc (A ++ '\n' :: '\n' :: B)
      = (acc.reverse ++ A) :: splitOn2NL [] B := by
  induction A with
  | nil => intro acc B; simp [splitOn2NL_sep]
  | cons a as ih =>
    intro acc B
    rw [List.cons_append,
      splitOn2NL_cons_ne acc (hA a (List.mem_cons_self _ _)) _,
      ih (fun c hc => hA c (List.mem_cons_of_mem _ hc)) (a :: acc) B]
    simp

lemma splitOn2NL_no_nl {A : Str} (hA : ∀ c ∈ A, c ≠ '\n') :
    ∀ acc : Str, splitOn2NL acc A = [acc.reverse ++ A] := by
  induction A with
  | nil => intro acc; simp [splitOn2NL]
  | cons a as ih =>
    intro acc
    rw [splitOn2NL_cons_ne acc (hA a (List.mem_cons_self _ _)) _,
      ih (fun c hc => hA c (List.mem_cons_of_mem _ hc)) (a :: acc)]
    simp

lemma stripLeft_cons_not_space {c : Char} (hc : pyIsSpace c = false)
    (l : Str) : stripLeft (c :: l) = c :: l := by
  simp [stripLeft, List.dropWhile_cons, hc]

lemma stripLeft_cons_space {c : Char} (hc : pyIsSpace c = true) (l : Str) :
    stripLeft (c :: l) = stripLeft l := by
  simp [stripLeft, List.dropWhile_cons, hc]

lemma stripLeft_replicate {n : Nat} {d : Char} (hd : pyIsSpace d = false) :
    stripLeft (List.replicate n d) = List.replicate n d := by
  cases n with
  | zero => rfl
  | succ m => rw [List.replicate_succ]; exact stripLeft_cons_not_space hd _

lemma stripRight_replicate {n : Nat} {d : Char} (hd : pyIsSpace d = false) :
    stripRight (List.replicate n d) = List.replicate n d := by
  rw [stripRight, List.reverse_replicate]
  cases n with
  | zero => rfl
  | succ m =>
    rw [List.replicate_succ, List.dropWhile_cons]
    simp only [hd, Bool.false_eq_true, if_false]
    rw [← List.replicate_succ, List.reverse_replicate]

lemma chars_paraC5A : ∀ c ∈ paraC5A, c ≠ '\n' := by
  intro c hc
  rw [paraC5A] at hc
  rcases List.mem_append.mp hc with h1 | h2
  · rw [List.eq_of_mem_replicate h1]; decide
  · rcases List.mem_append.mp h2 with h3 | h4
    · rw [List.mem_singleton] at h3; rw [h3]; decide
    · rw [List.eq_of_mem_replicate h4]; decide

lemma chars_paraC5B : ∀ c ∈ paraC5B, c ≠ '\n' := by
  intro c hc
  rw [paraC5B] at hc
  rw [List.eq_of_mem_replicate hc]
  decide

lemma paraC5A_length : paraC5A.length = 3050 := by
  rw [paraC5A]
  simp only [List.length_append, List.length_replicate, List.length_singleton]

lemma paraC5B_length : paraC5B.length = 300 := by
  rw [paraC5B, List.length_replicate]

lemma paraC5A_ne : paraC5A ≠ [] := by
  intro h
  have := paraC5A_length
  rw [h] at this
  simp at this

lemma paraC5B_ne : paraC5B ≠ [] := by
  intro h
  have := paraC5B_length
  rw [h] at this
  simp at this

lemma stripLeft_paraC5A : stripLeft paraC5A = paraC5A := by
  rw [paraC5A, show (2900 : Nat) = 2899 + 1 from rfl, List.replicate_succ,
    List.cons_append]
  exact stripLeft_cons_not_space (by decide) _

lemma stripRight_paraC5A : stripRight paraC5A = paraC5A := by
  rw [paraC5A, ← List.append_assoc]
  exact stripRight_append_of_stripped (stripRight_replicate (by decide))
    (by rw [ne_eq, List.replicate_eq_nil]; decide) _

lemma PPara_paraC5A : PPara paraC5A :=
  ⟨paraC5A_ne, by rw [pyStrip, stripLeft_paraC5A, stripRight_paraC5A]⟩

lemma PPara_paraC5B : PPara paraC5B := by
  refine ⟨paraC5B_ne, ?_⟩
  rw [pyStrip, paraC5B, stripLeft_replicate (by decide),
    stripRight_replicate (by decide)]

lemma paragraphsOf_textC5 : paragraphsOf textC5 = [paraC5A, paraC5B] := by
  have hsplit : splitOn2NL [] textC5 = [paraC5A, paraC5B] := by
    rw [textC5, splitOn2NL_append_no_nl chars_paraC5A [] paraC5B,
      splitOn2NL_no_nl chars_paraC5B []]
    simp only [List.reverse_nil, List.nil_append]
  rw [paragraphsOf, hsplit]
  simp only [List.map_cons, List.map_nil, PPara_paraC5A.2, PPara_paraC5B.2]
  rw [List.filter_cons, if_pos (decide_eq_true paraC5A_ne),
    List.filter_cons, if_pos (decide_eq_true paraC5B_ne), List.filter_nil]
  rw [if_neg (List.cons_ne_nil _ _)]

lemma chunkStep_C5_first :
    chunkStep ⟨[], 0, []⟩ paraC5A = ⟨paraC5A, 0, []⟩ := by
  rw [chunkStep_eq, if_pos rfl, if_pos]
  rw [paraC5A_length]
  decide

lemma paraC5A_drop : paraC5A.drop 2900 = [' '] ++ List.replicate 149 'c' := by
  rw [paraC5A]
  exact List.drop_left' (by simp)

lemma chunkStep_C5_second :
    chunkStep ⟨paraC5A, 0, []⟩ paraC5B
      = ⟨ncC5, 1, [mkChunk paraC5A 0]⟩ := by
  have hA_ne : ¬ ((ChunkState.mk paraC5A 0 []).current = []) := paraC5A_ne
  have hbig : ¬ ((ChunkState.mk paraC5A 0 []).current ++ sepNL
      ++ paraC5B).length ≤ optimalChunkSize := by
    show ¬ (paraC5A ++ sepNL ++ paraC5B).length ≤ optimalChunkSize
    simp only [List.length_append, paraC5A_length, paraC5B_length, sepNL,
      List.length_cons, List.length_nil]
    decide
  have hov : (ChunkState.mk paraC5A 0 []).current ≠ [] ∧
      overlapSize < ((ChunkState.mk paraC5A 0 []).current).length := by
    refine ⟨paraC5A_ne, ?_⟩
    show overlapSize < paraC5A.length
    rw [paraC5A_length]
    decide
  have hsave : (ChunkState.mk paraC5A 0 []).current ≠ [] ∧
      minChunkSize <
        (pyStrip ((ChunkState.mk paraC5A 0 []).current)).length := by
    refine ⟨paraC5A_ne, ?_⟩
    show minChunkSize < (pyStrip paraC5A).length
    rw [PPara_paraC5A.2, paraC5A_length]
    decide
  rw [chunkStep_eq, if_neg hA_ne, if_neg hbig, if_pos hov, if_pos hsave,
    if_pos hsave]
  rw [ChunkState.mk.injEq]
  refine ⟨?_, rfl, rfl⟩
  rw [show (ChunkState.mk paraC5A 0 []).current = paraC5A from rfl,
    paraC5A_length, show (3050 : Nat) - overlapSize = 2900 from rfl,
    paraC5A_drop, ncC5]

lemma stripRight_paraC5B : stripRight paraC5B = paraC5B := by
  rw [paraC5B]
  exact stripRight_replicate (by decide)

lemma pyStrip_ncC5 :
    pyStrip ncC5 = List.replicate 149 'c' ++ sepNL ++ paraC5B := by
  have hz : ncC5 = ' ' :: (List.replicate 149 'c' ++ (sepNL ++ paraC5B)) := by
    rw [ncC5]
    simp only [List.append_assoc, List.cons_append, List.nil_append]
  rw [pyStrip, hz, stripLeft_cons_space (by decide) _,
    stripLeft_append_of_ne
      (by rw [stripLeft_replicate (by decide), ne_eq,
        List.replicate_eq_nil]; decide) _,
    stripLeft_replicate (by decide), ← List.append_assoc]
  exact stripRight_append_of_stripped stripRight_paraC5B paraC5B_ne _

lemma ncC5_length : ncC5.length = 452 := by
  rw [ncC5, paraC5B, sepNL]
  simp only [List.length_append, List.length_replicate,
    List.length_singleton, List.length_cons, List.length_nil]

lemma pyStrip_ncC5_length : (pyStrip ncC5).length = 451 := by
  rw [pyStrip_ncC5, paraC5B, sepNL]
  simp only [List.length_append, List.length_replicate,
    List.length_cons, List.length_nil]

lemma ncC5_ne : ncC5 ≠ [] := by
  intro h
  have := ncC5_length
  rw [h] at this
  simp at this

lemma textC5_ne : textC5 ≠ [] := by
  rw [textC5]
  intro h
  exact paraC5A_ne (List.append_eq_nil.mp h).1

lemma pyStrip_textC5 : pyStrip textC5 = textC5 := by
  have hl : stripLeft textC5 = textC5 := by
    rw [textC5,
      stripLeft_append_of_ne
        (by rw [stripLeft_paraC5A]; exact paraC5A_ne) _,
      stripLeft_paraC5A]
  have hr : stripRight textC5 = textC5 := by
    rw [textC5, show ('\n' :: '\n' :: paraC5B) = ['\n', '\n'] ++ paraC5B
      from rfl, ← List.append_assoc]
    exact stripRight_append_of_stripped stripRight_paraC5B paraC5B_ne _
  rw [pyStrip, hl, hr]

lemma split_textC5 :
    split_text_into_chunks textC5 = [mkChunk paraC5A 0, mkChunk ncC5 1] := by
  rw [split_text_into_chunks]
  show (if pyStrip textC5 = [] then []
    else finalizeChunks
      ((paragraphsOf (pyStrip textC5)).foldl chunkStep ⟨[], 0, []⟩)) = _
  rw [pyStrip_textC5, if_neg textC5_ne, paragraphsOf_textC5,
    List.foldl_cons, List.foldl_cons, List.foldl_nil, chunkStep_C5_first,
    chunkStep_C5_second, finalizeChunks]
  rw [if_pos (show (ChunkState.mk ncC5 1 [mkChunk paraC5A 0]).current ≠ [] ∧
      minChunkSize <
        (pyStrip ((ChunkState.mk ncC5 1 [mkChunk paraC5A 0]).current)).length
    from ⟨ncC5_ne, by
      show minChunkSize < (pyStrip ncC5).length
      rw [pyStrip_ncC5_length]
      decide⟩)]
  rfl

/-- Counterexample to C5 as stated: on `textC5` the second emitted
chunk records `chunk_size = 452` while its stored text has length 451
(the leading overlap space was stripped from the text but still counted
by `chunk_size`), so `chunk_size ≠ length(text)`. -/
theorem chunk_size_mismatch_cex :
    ∃ c ∈ split_text_into_chunks textC5,
      c.metadata.chunk_size ≠ c.text.length := by
  refine ⟨mkChunk ncC5 1, ?_, ?_⟩
  · rw [split_textC5]
    exact List.mem_cons_of_mem _ (List.mem_cons_self _ _)
  · show ncC5.length ≠ (pyStrip ncC5).length
    rw [ncC5_length, pyStrip_ncC5_length]
    decide

end IQRS
